import Mathlib

/-!
# Verification of the keel image-reference normalization core

Shallow embedding of `util/image/reference.go` and the accompanying
facade file (`Reference`, `Parse`, `ParseRepo`, `clean`) of the keel
repository.  Go strings are modelled as `List Char`; byte indexing and
slicing on the strings the code manipulates (all ASCII) coincide with
character indexing, so `take`/`drop` on the character list model Go's
slicing exactly.  The external grammar-parser library
(`reference.ParseNormalizedNamed`, `reference.WithName`,
`reference.WithTag`, `reference.WithDigest`) is not part of this
repository; its pieces are modelled from the spec and marked as such,
and the parsing entry points are parameterized by the grammar parser's
output so theorems quantify over every possible collaborator behaviour.
-/

deriving instance DecidableEq for Except

namespace Keel

/-- Go strings, modelled as lists of characters. -/
abbrev Str := List Char

/-- Coerce a Lean string literal to the model's string type. -/
def str (s : String) : Str := s.data

/-- Go `strings.ToLower`, restricted to ASCII (the only characters the
validation rules ever distinguish). -/
def toLower (s : Str) : Str := s.map Char.toLower

/-- Go `strings.IndexRune(s, c)`: index of the first occurrence, `none`
for Go's `-1`. -/
def indexRune : Str → Char → Option Nat
  | [], _ => none
  | c :: s, r => if c = r then some 0 else (indexRune s r).map (· + 1)

/-- Go `strings.ContainsRune`. -/
def containsRune (s : Str) (c : Char) : Bool := s.any (· = c)

/-- Go `strings.ContainsAny(s, ".:")` specialised to the one charset the
source uses. -/
def containsDotColon (s : Str) : Bool := s.any (fun c => c = '.' ∨ c = ':')

/-- Go `strings.TrimPrefix`. -/
def trimPre (s pre : Str) : Str := if pre.isPrefixOf s then s.drop pre.length else s

/-- Go `strings.Replace(s, pat, "", 1)`: delete the first occurrence of
`pat` (the only use of `Replace` in the source deletes). -/
def dropFirstOccur (pat : Str) : Str → Str
  | [] => []
  | c :: rest =>
    if pat.isPrefixOf (c :: rest) then (c :: rest).drop pat.length
    else c :: dropFirstOccur pat rest

/-- Source `DefaultTag`: default tag when none is given. -/
def DefaultTag : Str := str "latest"

/-- Source `WrongRegistryHostname`: the legacy alias hostname. -/
def WrongRegistryHostname : Str := str "docker.io"

/-- Source `DefaultRegistryHostname`: the default built-in hostname. -/
def DefaultRegistryHostname : Str := str "index.docker.io"

/-- Source `DefaultScheme`: default scheme for registries. -/
def DefaultScheme : Str := str "https"

/-- Source `DefaultRepoPrefix`: prefix for default repositories in the default
host. -/
def DefaultRepoPrefix : Str := str "library/"

/-- The error kinds the source distinguishes (each constructor stands for
one of the `errors.New`/`fmt.Errorf` sites). -/
inductive RefError where
  /-- Source `ParseNamed` wrapping the grammar parser's syntax error. -/
  | syntaxErr (msg : Str)
  /-- Source `normalize`: "repository name must be lowercase". -/
  | notLowercase
  /-- Source `validateName`: 64-byte hexadecimal strings are not names. -/
  | hexName (name : Str)
  /-- the underlying library rejecting a tag's syntax. -/
  | badTag (tag : Str)
  /-- the underlying library rejecting a digest's syntax. -/
  | badDigest (dig : Str)
deriving DecidableEq, Repr

/-- Source `splitHostname`: split a repository name into hostname and remote
name; rewrite the legacy alias and add the official-image prefix. -/
def splitHostname (name : Str) : Str × Str :=
  -- i := strings.IndexRune(name, '/');
  -- i == -1 || (!ContainsAny(name[:i], ".:") && name[:i] != "localhost")
  let hr : Str × Str :=
    match indexRune name '/' with
    | none => (DefaultRegistryHostname, name)
    | some i =>
      if ¬ containsDotColon (name.take i) ∧ name.take i ≠ str "localhost" then
        (DefaultRegistryHostname, name)
      else
        (name.take i, name.drop (i + 1))
  let hostname := if hr.1 = WrongRegistryHostname then DefaultRegistryHostname else hr.1
  let remoteName :=
    if hostname = DefaultRegistryHostname ∧ ¬ containsRune hr.2 '/' then
      DefaultRepoPrefix ++ hr.2
    else hr.2
  (hostname, remoteName)

/-- Source `normalize`: strip the default hostname and the `library/` prefix,
rejecting non-lowercase remote names. -/
def normalize (name : Str) : Except RefError Str :=
  let hr := splitHostname name
  if toLower hr.2 ≠ hr.2 then
    .error .notLowercase
  else if hr.1 = DefaultRegistryHostname then
    if DefaultRepoPrefix.isPrefixOf hr.2 then
      .ok (trimPre hr.2 DefaultRepoPrefix)
    else .ok hr.2
  else .ok name

/-- Source `ValidateID`'s acceptance condition (the helper lives outside this
package): the name is a 64-character lowercase-hex string. -/
def isHex64 (s : Str) : Bool :=
  s.length = 64 && s.all (fun c => c.isDigit || ('a' ≤ c && c ≤ 'f'))

/-- Source `validateName`: reject names that `ValidateID` would accept. -/
def validateName (name : Str) : Except RefError Unit :=
  if isHex64 name then .error (.hexName name) else .ok ()

/-- The internal reference value behind the `Named` interface: the source
wraps the underlying library value in `namedRef`, `taggedRef` or
`canonicalRef`, and `IsNameOnly` dispatches on which capability
(`NamedTagged`, `Canonical`) the wrapper exposes; the three wrappers are
modelled as the three constructors. -/
inductive Named where
  | plain (name : Str)
  | tagged (name : Str) (tag : Str)
  | canonical (name : Str) (dig : Str)
deriving DecidableEq, Repr

/-- Source `Named.Name()`: the normalized repository name, common to all three
wrappers (tag and digest are carried separately). -/
def Named.Name : Named → Str
  | .plain n => n
  | .tagged n _ => n
  | .canonical n _ => n

/-- Source `namedRef.FullName()`: hostname + "/" + remoteName. -/
def Named.FullName (r : Named) : Str :=
  let hr := splitHostname r.Name
  hr.1 ++ str "/" ++ hr.2

/-- Source `namedRef.Hostname()`. -/
def Named.Hostname (r : Named) : Str := (splitHostname r.Name).1

/-- Source `namedRef.RemoteName()`. -/
def Named.RemoteName (r : Named) : Str := (splitHostname r.Name).2

/-- Modelled from the spec: the external grammar's tag-syntax check, used
by the underlying library's `reference.WithTag` (that library is not part
of this repository).  A tag is a word character followed by at most 127
word characters, dots or dashes. -/
def validTag (t : Str) : Bool :=
  match t with
  | [] => false
  | c :: rest =>
    (c.isAlphanum || c = '_') &&
      rest.length ≤ 127 && rest.all (fun d => d.isAlphanum || d = '_' || d = '.' || d = '-')

/-- Modelled from the spec: the external library's digest-syntax check
(digest-algorithm validation is out of scope per the spec): an algorithm
name, a colon, and a nonempty hex body. -/
def validDigest (d : Str) : Bool :=
  match indexRune d ':' with
  | none => false
  | some i =>
    decide (0 < i) && (d.take i).all (fun c => c.isLower || c.isDigit) &&
      decide (i + 1 < d.length) && (d.drop (i + 1)).all (fun c => c.isDigit || ('a' ≤ c && c ≤ 'f'))

/-- Source `WithTag`: combine a name and a tag.  The underlying library
combinator is modelled from the spec: it keeps only the capabilities
named (base name plus the new tag), failing when the grammar rejects the
tag's syntax. -/
def WithTag (name : Named) (tag : Str) : Except RefError Named :=
  if validTag tag then .ok (.tagged name.Name tag) else .error (.badTag tag)

/-- Source `WithDigest`: combine a name and a digest.  The underlying library
combinator is modelled from the spec, as for `WithTag`. -/
def WithDigest (name : Named) (dig : Str) : Except RefError Named :=
  if validDigest dig then .ok (.canonical name.Name dig) else .error (.badDigest dig)

/-- Source `WithName`: normalize, reject 64-hex names, and build the underlying
validated name object.  The final library-level re-validation
(`reference.WithName`) belongs to the external grammar collaborator and
is modelled from the spec as accepting the already-normalized name. -/
def WithName (name : Str) : Except RefError Named :=
  match normalize name with
  | .error e => .error e
  | .ok name =>
    match validateName name with
    | .error e => .error e
    | .ok _ => .ok (.plain name)

/-- Source `IsNameOnly`: true when the value exposes neither the `NamedTagged`
nor the `Canonical` capability. -/
def IsNameOnly (ref : Named) : Bool :=
  match ref with
  | .tagged _ _ => false
  | .canonical _ _ => false
  | .plain _ => true

/-- Source `WithDefaultTag`: attach the default tag to a name-only reference.
The source discards `WithTag`'s error (`ref, _ = WithTag(...)`); that
branch is unreachable because `DefaultTag` is always a valid tag. -/
def WithDefaultTag (ref : Named) : Named :=
  if IsNameOnly ref then
    match WithTag ref DefaultTag with
    | .ok r => r
    | .error _ => ref
  else ref

/-- Modelled from the spec: the structured result of the external grammar
parser (`reference.ParseNormalizedNamed`), exposing at minimum the base
name, an optional tag and an optional digest. -/
structure NormalizedNamed where
  name : Str
  tag : Option Str
  dig : Option Str
deriving DecidableEq, Repr

/-- The grammar collaborator's outcome: a syntax-error message or a
structured named reference. -/
abbrev GrammarResult := Except Str NormalizedNamed

/-- Source `ParseNamed`, factored over the grammar parser's output on its input
string: wrap the syntax error, re-derive a `Named` via `WithName` on the
extracted name, then attach the digest (if extracted) or else the tag. -/
def ParseNamedFrom (g : GrammarResult) : Except RefError Named :=
  match g with
  | .error e => .error (.syntaxErr e)
  | .ok named =>
    match WithName named.name with
    | .error e => .error e
    | .ok r =>
      match named.dig with
      | some d => WithDigest r d
      | none =>
        match named.tag with
        | some t => WithTag r t
        | none => .ok r

/-- Source `ParseNamed`, parameterized by the external grammar parser `G`: the
source passes its argument to the grammar unchanged. -/
def ParseNamed (G : Str → GrammarResult) (s : Str) : Except RefError Named :=
  ParseNamedFrom (G s)

/-- Source `Repository`: the flat record built from the facade.  The field
names keep the source's capitalisation. -/
structure Repository where
  Name : Str
  Repository : Str
  Registry : Str
  Scheme : Str
  ShortName : Str
  Remote : Str
  Tag : Str
deriving DecidableEq, Repr

/-- Source `Reference`: a named reference paired with the precomputed
tag/digest suffix string (separator included). -/
structure Reference where
  named : Named
  tag : Str
deriving DecidableEq, Repr

/-- Source `Reference.Name()`. -/
def Reference.Name (r : Reference) : Str := r.named.RemoteName ++ r.tag

/-- Source `Reference.ShortName()`. -/
def Reference.ShortName (r : Reference) : Str := r.named.RemoteName

/-- Source `Reference.Tag()`: `r.tag[1:]` when the suffix has length
above one, the empty string otherwise. -/
def Reference.Tag (r : Reference) : Str :=
  if 1 < r.tag.length then r.tag.drop 1 else []

/-- Source `Reference.Registry()`. -/
def Reference.Registry (r : Reference) : Str := r.named.Hostname

/-- Source `Reference.Repository()`. -/
def Reference.Repository (r : Reference) : Str := r.named.FullName

/-- Source `Reference.Remote()`. -/
def Reference.Remote (r : Reference) : Str := r.named.FullName ++ r.tag

/-- Source `clean`: strip one leading `http://` or `https://` scheme
(Go deletes the first occurrence of the prefix it just found at the
front). -/
def clean (url : Str) : Str :=
  if (str "http://").isPrefixOf url then dropFirstOccur (str "http://") url
  else if (str "https://").isPrefixOf url then dropFirstOccur (str "https://") url
  else url

/-- The suffix the type switch in `Parse`/`ParseRepo` computes: `"@" +
digest` for a `Canonical`, `":" + tag` for a `NamedTagged`, empty
otherwise (the `Canonical` case is checked first). -/
def suffixOf (n : Named) : Str :=
  match n with
  | .canonical _ d => '@' :: d
  | .tagged _ t => ':' :: t
  | .plain _ => []

/-- Source `Parse`, factored over the grammar parser's output on the
cleaned string. -/
def ParseFrom (g : GrammarResult) : Except RefError Reference :=
  match ParseNamedFrom g with
  | .error e => .error e
  | .ok n =>
    let n := WithDefaultTag n
    .ok { named := n, tag := suffixOf n }

/-- Source `Parse`, parameterized by the external grammar parser `G`
(applied, as in the source, to the cleaned remote string). -/
def Parse (G : Str → GrammarResult) (remote : Str) : Except RefError Reference :=
  ParseFrom (G (clean remote))

/-- Source `ParseRepo`, factored over the grammar parser's output on the
cleaned string: the same construction as `ParseFrom`, then a field-wise
copy of the facade accessors.  The Go struct literal never sets `Scheme`,
which is therefore its zero value, the empty string. -/
def ParseRepoFrom (g : GrammarResult) : Except RefError Repository :=
  match ParseNamedFrom g with
  | .error e => .error e
  | .ok n =>
    let n := WithDefaultTag n
    let ref : Reference := { named := n, tag := suffixOf n }
    .ok { Name := ref.Name
          Repository := ref.Repository
          Registry := ref.Registry
          Scheme := []
          ShortName := ref.ShortName
          Remote := ref.Remote
          Tag := ref.Tag }

/-- Source `ParseRepo`, parameterized by the external grammar parser. -/
def ParseRepo (G : Str → GrammarResult) (remote : Str) : Except RefError Repository :=
  ParseRepoFrom (G (clean remote))

end Keel

namespace Keel

/-! ## Helper lemmas -/

theorem validTag_default : validTag DefaultTag = true := by decide

theorem default_ne_wrong : DefaultRegistryHostname ≠ WrongRegistryHostname := by decide

theorem toLower_repoPre : toLower DefaultRepoPrefix = DefaultRepoPrefix := by decide

theorem indexRune_eq_none {s : Str} {c : Char} :
    indexRune s c = none ↔ containsRune s c = false := by
  induction s with
  | nil => simp [indexRune, containsRune]
  | cons a s ih =>
    by_cases h : a = c <;> simp [indexRune, containsRune, h] <;>
      simpa [containsRune] using ih

theorem indexRune_some_decomp {s : Str} {c : Char} {i : Nat} (h : indexRune s c = some i) :
    s.take i ++ c :: s.drop (i + 1) = s ∧ containsRune s c = true := by
  induction s generalizing i with
  | nil => simp [indexRune] at h
  | cons a s ih =>
    by_cases ha : a = c
    · simp [indexRune, ha] at h
      subst ha h
      simp [containsRune]
    · simp [indexRune, ha] at h
      obtain ⟨j, hj, rfl⟩ := h
      have hs := ih hj
      constructor
      · show (a :: s).take (j + 1) ++ c :: (a :: s).drop (j + 1 + 1) = a :: s
        rw [List.take_succ_cons, List.drop_succ_cons, List.cons_append, hs.1]
      · simp only [containsRune, List.any_cons] at hs ⊢
        rw [hs.2, Bool.or_true]

theorem isPrefixOf_append_self (p t : Str) : p.isPrefixOf (p ++ t) = true :=
  List.isPrefixOf_iff_prefix.mpr (List.prefix_append p t)

theorem eq_append_of_isPrefixOf {p s : Str} (h : p.isPrefixOf s = true) :
    p ++ s.drop p.length = s := by
  obtain ⟨t, rfl⟩ := List.isPrefixOf_iff_prefix.mp h
  rw [List.drop_left]

theorem toLower_append_split {a b : Str} (h : toLower (a ++ b) = a ++ b) :
    toLower a = a ∧ toLower b = b := by
  rw [toLower, List.map_append] at h
  exact List.append_inj h (by simp [toLower])

theorem toLower_drop {v : Str} (h : toLower v = v) (n : Nat) :
    toLower (v.drop n) = v.drop n := by
  rw [toLower, List.map_drop]
  rw [toLower] at h
  rw [h]

theorem splitHostname_eq_none {name : Str} (h : indexRune name '/' = none) :
    splitHostname name = (DefaultRegistryHostname, DefaultRepoPrefix ++ name) := by
  have hc : containsRune name '/' = false := indexRune_eq_none.mp h
  simp [splitHostname, h, hc, default_ne_wrong]

/-! ## C1: name-only inputs get the default host and the official prefix -/

/-- C1: for every valid name-only input `n` (entirely lowercase, a single
path segment with no '/', containing no '.' or ':' and different from
"localhost"), `splitHostname n` returns hostname `"index.docker.io"` and
remote name `"library/" ++ n`. -/
theorem splitHostname_single_segment :
    ∀ n : Str, toLower n = n → containsRune n '/' = false →
      containsDotColon n = false → n ≠ str "localhost" →
      splitHostname n = (DefaultRegistryHostname, DefaultRepoPrefix ++ n) := by
  intro n _ hs _ _
  exact splitHostname_eq_none (indexRune_eq_none.mpr hs)

/-- Witness for C1 at the concrete input "debian". -/
theorem splitHostname_single_segment_w :
    splitHostname (str "debian") = (str "index.docker.io", str "library/debian") := by
  rw [splitHostname_single_segment (str "debian") (by decide) (by decide) (by decide) (by decide)]
  decide

/-! ## C5: the legacy alias hostname never escapes construction -/

/-- C5: `splitHostname` never returns the legacy alias hostname
"docker.io", and `Parse` on "docker.io/library/ubuntu" (the grammar
having extracted that very name) yields registry "index.docker.io". -/
theorem no_wrong_registry_hostname :
    (∀ name : Str, (splitHostname name).1 ≠ WrongRegistryHostname) ∧
    (ParseFrom (.ok ⟨str "docker.io/library/ubuntu", none, none⟩)).map Reference.Registry
      = .ok DefaultRegistryHostname := by
  refine ⟨fun name => ?_, by decide⟩
  have key : ∀ a : Str,
      (if a = WrongRegistryHostname then DefaultRegistryHostname else a)
        ≠ WrongRegistryHostname := by
    intro a
    split
    · exact default_ne_wrong
    · assumption
  simp only [splitHostname]
  exact key _

/-! ## C7: the default-tag resolver is idempotent -/

/-- C7: `WithDefaultTag` is idempotent, and is the identity on every
reference that is not name-only (already tagged or canonical). -/
theorem withDefaultTag_idempotent :
    ∀ r : Named, WithDefaultTag (WithDefaultTag r) = WithDefaultTag r ∧
      (IsNameOnly r = false → WithDefaultTag r = r) := by
  intro r
  cases r with
  | plain n =>
    refine ⟨?_, by simp [IsNameOnly]⟩
    simp [WithDefaultTag, IsNameOnly, WithTag, validTag_default, Named.Name]
  | tagged n t => simp [WithDefaultTag, IsNameOnly]
  | canonical n d => simp [WithDefaultTag, IsNameOnly]

/-- Witness for C7 on an already-tagged reference. -/
theorem withDefaultTag_idempotent_w :
    WithDefaultTag (.tagged (str "app") (str "v1")) = .tagged (str "app") (str "v1") :=
  (withDefaultTag_idempotent (.tagged (str "app") (str "v1"))).2 (by decide)

/-! ## C9: non-lowercase repository paths are rejected -/

theorem normalize_err_of_not_lower {name : Str}
    (h : toLower (splitHostname name).2 ≠ (splitHostname name).2) :
    normalize name = .error .notLowercase := by
  simp only [normalize]
  rw [if_pos h]

/-- C9: whenever the split-off repository path is not entirely lowercase,
`normalize` fails with the lowercase-violation error, and `Parse` fails
(whatever the grammar collaborator answered, syntax error included), so
no reference value is produced. -/
theorem lowercase_rejected :
    (∀ name : Str, toLower (splitHostname name).2 ≠ (splitHostname name).2 →
      normalize name = .error .notLowercase) ∧
    (∀ g : GrammarResult,
      (∀ nn, g = .ok nn → toLower (splitHostname nn.name).2 ≠ (splitHostname nn.name).2) →
      ∃ e, ParseFrom g = .error e) := by
  constructor
  · intro name h
    exact normalize_err_of_not_lower h
  · intro g hg
    cases g with
    | error e => exact ⟨.syntaxErr e, rfl⟩
    | ok nn =>
      have hn := normalize_err_of_not_lower (hg nn rfl)
      exact ⟨.notLowercase, by simp [ParseFrom, ParseNamedFrom, WithName, hn]⟩

/-- Witness for C9 at the concrete input "Ubuntu". -/
theorem lowercase_rejected_w :
    normalize (str "Ubuntu") = .error .notLowercase ∧
    ∃ e, ParseFrom (.ok ⟨str "Ubuntu", none, none⟩) = .error e :=
  ⟨lowercase_rejected.1 (str "Ubuntu") (by decide),
   lowercase_rejected.2 (.ok ⟨str "Ubuntu", none, none⟩)
     (by intro nn h; cases h; decide)⟩

/-! ## C3: idempotence of normalize -/

theorem toLower_append_eq {a b : Str} (ha : toLower a = a) (hb : toLower b = b) :
    toLower (a ++ b) = a ++ b := by
  rw [toLower, List.map_append]
  rw [toLower] at ha hb
  rw [ha, hb]

theorem trimPre_append (p t : Str) : trimPre (p ++ t) p = t := by
  unfold trimPre
  rw [if_pos (isPrefixOf_append_self p t)]
  exact List.drop_left p t

theorem splitHostname_eq_plain_seg {v : Str} {i : Nat} (hi : indexRune v '/' = some i)
    (hc : ¬ containsDotColon (v.take i) ∧ v.take i ≠ str "localhost") :
    splitHostname v = (DefaultRegistryHostname, v) := by
  have hcont := (indexRune_some_decomp hi).2
  simp only [splitHostname, hi]
  rw [if_pos hc]
  simp [default_ne_wrong, hcont]

theorem splitHostname_eq_some {v : Str} {i : Nat} (hi : indexRune v '/' = some i)
    (hc : ¬ (¬ containsDotColon (v.take i) ∧ v.take i ≠ str "localhost")) :
    splitHostname v =
      ((if v.take i = WrongRegistryHostname then DefaultRegistryHostname else v.take i),
       if (if v.take i = WrongRegistryHostname then DefaultRegistryHostname else v.take i)
            = DefaultRegistryHostname ∧ ¬ containsRune (v.drop (i + 1)) '/' then
         DefaultRepoPrefix ++ v.drop (i + 1)
       else v.drop (i + 1)) := by
  simp only [splitHostname, hi]
  rw [if_neg hc]

theorem splitHostname_eq_host {v : Str} {i : Nat} (hi : indexRune v '/' = some i)
    (hc : ¬ (¬ containsDotColon (v.take i) ∧ v.take i ≠ str "localhost"))
    (hw : v.take i ≠ WrongRegistryHostname) (hd : v.take i ≠ DefaultRegistryHostname) :
    splitHostname v = (v.take i, v.drop (i + 1)) := by
  rw [splitHostname_eq_some hi hc]
  rw [if_neg hw]
  rw [if_neg (fun hand => hd hand.1)]

theorem splitHostname_snd_lower {v : Str} (h : toLower v = v) :
    toLower (splitHostname v).2 = (splitHostname v).2 := by
  cases hi : indexRune v '/' with
  | none =>
    rw [splitHostname_eq_none hi]
    exact toLower_append_eq toLower_repoPre h
  | some i =>
    by_cases hc : ¬ containsDotColon (v.take i) ∧ v.take i ≠ str "localhost"
    · rw [splitHostname_eq_plain_seg hi hc]
      exact h
    · rw [splitHostname_eq_some hi hc]
      have hdrop : toLower (v.drop (i + 1)) = v.drop (i + 1) := toLower_drop h _
      by_cases hrem : (if v.take i = WrongRegistryHostname then DefaultRegistryHostname
            else v.take i) = DefaultRegistryHostname ∧ ¬ containsRune (v.drop (i + 1)) '/'
      · rw [if_pos hrem]
        exact toLower_append_eq toLower_repoPre hdrop
      · rw [if_neg hrem]
        exact hdrop

theorem normalize_lower_ok {v : Str} (h : toLower v = v) : ∃ w, normalize v = .ok w := by
  have h2 := splitHostname_snd_lower h
  simp only [normalize]
  rw [if_neg (not_not_intro h2)]
  by_cases hd : (splitHostname v).1 = DefaultRegistryHostname
  · rw [if_pos hd]
    by_cases hp : DefaultRepoPrefix.isPrefixOf (splitHostname v).2 = true
    · rw [if_pos hp]
      exact ⟨_, rfl⟩
    · rw [if_neg hp]
      exact ⟨_, rfl⟩
  · rw [if_neg hd]
    exact ⟨_, rfl⟩

theorem normalize_fixed (v : Str) (hlow : toLower v = v)
    (h1 : DefaultRepoPrefix.isPrefixOf v = false)
    (h2 : (WrongRegistryHostname ++ str "/").isPrefixOf v = false)
    (h3 : (DefaultRegistryHostname ++ str "/").isPrefixOf v = false) :
    normalize v = .ok v := by
  cases hi : indexRune v '/' with
  | none =>
    have hl : toLower (DefaultRepoPrefix ++ v) = DefaultRepoPrefix ++ v :=
      toLower_append_eq toLower_repoPre hlow
    simp only [normalize, splitHostname_eq_none hi]
    rw [if_neg (not_not_intro hl), if_pos trivial,
      if_pos (isPrefixOf_append_self DefaultRepoPrefix v), trimPre_append]
  | some i =>
    obtain ⟨hdec, hcont⟩ := indexRune_some_decomp hi
    by_cases hc : ¬ containsDotColon (v.take i) ∧ v.take i ≠ str "localhost"
    · simp only [normalize, splitHostname_eq_plain_seg hi hc]
      rw [if_neg (not_not_intro hlow), if_pos trivial,
        if_neg (fun hp => Bool.false_ne_true (h1 ▸ hp))]
    · have hostNotPre : ∀ host : Str, v.take i = host →
          (host ++ str "/").isPrefixOf v = true := by
        intro host he
        rw [← hdec, he]
        have hassoc : (host ++ str "/") ++ v.drop (i + 1) = host ++ '/' :: v.drop (i + 1) := by
          rw [List.append_assoc]
          rfl
        rw [← hassoc]
        exact isPrefixOf_append_self (host ++ str "/") (v.drop (i + 1))
      have hw : v.take i ≠ WrongRegistryHostname := fun he =>
        Bool.false_ne_true (h2 ▸ hostNotPre _ he)
      have hd : v.take i ≠ DefaultRegistryHostname := fun he =>
        Bool.false_ne_true (h3 ▸ hostNotPre _ he)
      have hrest : toLower (v.drop (i + 1)) = v.drop (i + 1) := toLower_drop hlow _
      simp only [normalize, splitHostname_eq_host hi hc hw hd]
      rw [if_neg (not_not_intro hrest), if_neg hd]

theorem normalize_ok_cases {x v : Str} (h : normalize x = .ok v) :
    toLower (splitHostname x).2 = (splitHostname x).2 ∧
    (((splitHostname x).1 = DefaultRegistryHostname ∧
        v = trimPre (splitHostname x).2 DefaultRepoPrefix) ∨
     ((splitHostname x).1 ≠ DefaultRegistryHostname ∧ v = x)) := by
  simp only [normalize] at h
  by_cases hl : toLower (splitHostname x).2 = (splitHostname x).2
  · refine ⟨hl, ?_⟩
    rw [if_neg (not_not_intro hl)] at h
    by_cases hd : (splitHostname x).1 = DefaultRegistryHostname
    · rw [if_pos hd] at h
      refine Or.inl ⟨hd, ?_⟩
      by_cases hp : DefaultRepoPrefix.isPrefixOf (splitHostname x).2 = true
      · rw [if_pos hp] at h
        cases h
        rfl
      · rw [if_neg hp] at h
        cases h
        unfold trimPre
        rw [if_neg hp]
    · rw [if_neg hd] at h
      cases h
      exact Or.inr ⟨hd, rfl⟩
  · rw [if_pos hl] at h
    cases h

/-- Counterexample to C3 as stated: `normalize` succeeds on
"index.docker.io/library/docker.io/x" with value "docker.io/x", but a
second application strips further, to "x". -/
theorem normalize_not_idempotent_cex :
    normalize (str "index.docker.io/library/docker.io/x") = .ok (str "docker.io/x") ∧
    normalize (str "docker.io/x") = .ok (str "x") ∧
    (str "x" : Str) ≠ str "docker.io/x" := by
  decide

/-- C3 as amended: whenever `normalize x` succeeds with value `v`, the
second call `normalize v` always succeeds, and it returns `v` itself
provided `v` does not begin with the official-image prefix "library/",
the alias segment "docker.io/", or the canonical segment
"index.docker.io/" (on such values a second application strips
further, as the counterexample shows). -/
theorem normalize_idempotent_amended :
    ∀ x v : Str, normalize x = .ok v →
      (∃ w, normalize v = .ok w) ∧
      (DefaultRepoPrefix.isPrefixOf v = false →
       (WrongRegistryHostname ++ str "/").isPrefixOf v = false →
       (DefaultRegistryHostname ++ str "/").isPrefixOf v = false →
       normalize v = .ok v) := by
  intro x v h
  obtain ⟨hl, hcase⟩ := normalize_ok_cases h
  rcases hcase with ⟨hd, rfl⟩ | ⟨hd, rfl⟩
  · have hlv : toLower (trimPre (splitHostname x).2 DefaultRepoPrefix)
        = trimPre (splitHostname x).2 DefaultRepoPrefix := by
      unfold trimPre
      split
      · exact toLower_drop hl _
      · exact hl
    exact ⟨normalize_lower_ok hlv, fun h1 h2 h3 => normalize_fixed _ hlv h1 h2 h3⟩
  · exact ⟨⟨_, h⟩, fun _ _ _ => h⟩

/-- Witness for C3 as amended: the first call on "docker.io/ubuntu"
returns "ubuntu", and the second call is the identity there. -/
theorem normalize_idempotent_amended_w :
    (∃ w, normalize (str "ubuntu") = .ok w) ∧
    normalize (str "ubuntu") = .ok (str "ubuntu") := by
  have h := normalize_idempotent_amended (str "docker.io/ubuntu") (str "ubuntu") (by decide)
  exact ⟨h.1, h.2 (by decide) (by decide) (by decide)⟩

/-! ## C2: what the Tag accessor returns for each suffix shape -/

/-- Counterexample to C2 as stated: `Parse` on a digest reference (the
grammar having extracted base name "debian" and a digest) produces a
reference whose suffix begins with '@' yet whose `Tag()` is the digest
string, not the empty string. -/
theorem referenceTag_digest_not_empty :
    (ParseFrom (.ok ⟨str "debian", none,
        some (str "sha256:aaaaaaaaaaaaaaaaaaaaaaaaaaaaaaaaaaaaaaaaaaaaaaaaaaaaaaaaaaaaaaaa")⟩)).map
      (fun r => (r.tag.take 1, r.Tag))
      = .ok (str "@", str "sha256:aaaaaaaaaaaaaaaaaaaaaaaaaaaaaaaaaaaaaaaaaaaaaaaaaaaaaaaaaaaaaaaa") ∧
    str "sha256:aaaaaaaaaaaaaaaaaaaaaaaaaaaaaaaaaaaaaaaaaaaaaaaaaaaaaaaaaaaaaaaa" ≠ ([] : Str) := by
  decide

/-- C2 as amended: for every reference produced by `Parse`, `Tag()`
returns the empty string when the suffix is empty, and otherwise the
suffix with its single leading separator removed — for a ':' tag suffix
and equally for an '@' digest suffix (the accessor does not special-case
digests). -/
theorem referenceTag_strips_separator :
    ∀ (g : GrammarResult) (r : Reference), ParseFrom g = .ok r →
      (r.tag = [] → r.Tag = []) ∧
      (∀ t, r.tag = ':' :: t → r.Tag = t) ∧
      (∀ d, r.tag = '@' :: d → r.Tag = d) := by
  intro g r _
  have key : ∀ (c : Char) (t : Str), r.tag = c :: t → r.Tag = t := by
    intro c t h
    cases t with
    | nil => simp [Reference.Tag, h]
    | cons x xs => simp [Reference.Tag, h]
  refine ⟨fun h => by simp [Reference.Tag, h], key ':', key '@'⟩

/-- Witness for C2 as amended, on a tagged reference. -/
theorem referenceTag_strips_separator_w :
    (∃ r, ParseFrom (.ok ⟨str "ubuntu", none, none⟩) = .ok r ∧
      r.tag = ':' :: str "latest" ∧ r.Tag = str "latest") := by
  refine ⟨⟨.tagged (str "ubuntu") (str "latest"), ':' :: str "latest"⟩, by decide, by decide, ?_⟩
  exact (referenceTag_strips_separator (.ok ⟨str "ubuntu", none, none⟩) _ (by decide)).2.1
    (str "latest") rfl

/-! ## C4: the Scheme field of the repository record -/

/-- Counterexample to C4 as stated: on a successful `ParseRepo` the
record's `Scheme` field is the empty string (Go's zero value), not the
`DefaultScheme` constant "https". -/
theorem parseRepo_scheme_not_https :
    (ParseRepoFrom (.ok ⟨str "ubuntu", none, none⟩)).map Repository.Scheme = .ok ([] : Str) ∧
    ¬ (ParseRepoFrom (.ok ⟨str "ubuntu", none, none⟩)).map Repository.Scheme
        = .ok DefaultScheme := by
  decide

/-- C4 as amended: for every remote on which `ParseRepo` succeeds, the
returned record's `Scheme` field is the empty string — the struct literal
in `ParseRepo` never sets it, and `DefaultScheme` is never consulted. -/
theorem parseRepo_scheme_empty :
    ∀ (G : Str → GrammarResult) (remote : Str) (rep : Repository),
      ParseRepo G remote = .ok rep → rep.Scheme = [] := by
  intro G remote rep h
  unfold ParseRepo ParseRepoFrom at h
  cases hp : ParseNamedFrom (G (clean remote)) <;> rw [hp] at h
  · cases h
  · cases h
    rfl

/-- Witness for C4 as amended at the concrete remote "ubuntu" (grammar
returning the name unchanged). -/
theorem parseRepo_scheme_empty_w :
    ∃ rep, ParseRepo (fun s => .ok ⟨s, none, none⟩) (str "ubuntu") = .ok rep ∧
      rep.Scheme = [] :=
  ⟨{ Name := str "library/ubuntu:latest", Repository := str "index.docker.io/library/ubuntu",
     Registry := str "index.docker.io", Scheme := [], ShortName := str "library/ubuntu",
     Remote := str "index.docker.io/library/ubuntu:latest", Tag := str "latest" },
   by decide,
   parseRepo_scheme_empty (fun s => .ok ⟨s, none, none⟩) (str "ubuntu") _ (by decide)⟩

/-! ## C6: a tag and a digest never coexist -/

/-- C6: applying `WithTag` then `WithDigest` (or the reverse) to any
named reference yields exactly the value the last combinator alone
produces — only the last-applied capability is carried, so no accessor
can observe the earlier tag or digest. -/
theorem tag_digest_exclusive :
    ∀ (n : Named) (t d : Str), validTag t = true → validDigest d = true →
      ((WithTag n t).bind fun m => WithDigest m d) = WithDigest n d ∧
      ((WithDigest n d).bind fun m => WithTag m t) = WithTag n t := by
  intro n t d ht hd
  cases n <;> simp [WithTag, WithDigest, ht, hd, Named.Name, Except.bind]

/-- Witness for C6 at a concrete name, tag and digest. -/
theorem tag_digest_exclusive_w :
    ((WithTag (.plain (str "debian")) (str "v1")).bind fun m =>
        WithDigest m (str "sha256:aaaaaaaaaaaaaaaaaaaaaaaaaaaaaaaaaaaaaaaaaaaaaaaaaaaaaaaaaaaaaaaa"))
      = WithDigest (.plain (str "debian"))
          (str "sha256:aaaaaaaaaaaaaaaaaaaaaaaaaaaaaaaaaaaaaaaaaaaaaaaaaaaaaaaaaaaaaaaa") :=
  (tag_digest_exclusive (.plain (str "debian")) (str "v1")
    (str "sha256:aaaaaaaaaaaaaaaaaaaaaaaaaaaaaaaaaaaaaaaaaaaaaaaaaaaaaaaaaaaaaaaa")
    (by decide) (by decide)).1

/-! ## C8: where the scheme prefix is stripped -/

theorem dropFirstOccur_self_append (p s : Str) : dropFirstOccur p (p ++ s) = s := by
  cases p with
  | nil => cases s <;> simp [dropFirstOccur, List.isPrefixOf]
  | cons a p =>
    have h := isPrefixOf_append_self (a :: p) s
    simp only [List.cons_append] at h ⊢
    rw [dropFirstOccur, if_pos h]
    exact List.drop_left (a :: p) s

theorem clean_http (s : Str) : clean (str "http://" ++ s) = s := by
  unfold clean
  rw [if_pos (isPrefixOf_append_self (str "http://") s)]
  exact dropFirstOccur_self_append (str "http://") s

theorem http_not_pre_https (s : Str) :
    (str "http://").isPrefixOf (str "https://" ++ s) = false := rfl

theorem clean_https (s : Str) : clean (str "https://" ++ s) = s := by
  unfold clean
  rw [if_neg (by rw [http_not_pre_https s]; exact Bool.false_ne_true),
    if_pos (isPrefixOf_append_self (str "https://") s)]
  exact dropFirstOccur_self_append (str "https://") s

theorem clean_id {s : Str} (h1 : (str "http://").isPrefixOf s = false)
    (h2 : (str "https://").isPrefixOf s = false) : clean s = s := by
  unfold clean
  rw [if_neg (by rw [h1]; exact Bool.false_ne_true),
    if_neg (by rw [h2]; exact Bool.false_ne_true)]

/-- Counterexample to C8 as stated: `ParseNamed` itself passes its input
to the grammar parser unstripped, so a collaborator distinguishing the
two strings (here: one echoing its input as the extracted name) yields
different results for "https://ubuntu" and "ubuntu". -/
theorem parseNamed_no_scheme_strip_cex :
    ParseNamed (fun s => .ok ⟨s, none, none⟩) (str "https://" ++ str "ubuntu")
      ≠ ParseNamed (fun s => .ok ⟨s, none, none⟩) (str "ubuntu") := by
  decide

/-- C8 as amended: the scheme prefix is stripped by `clean` inside
`Parse` and `ParseRepo` (not inside `ParseNamed`): for every grammar
collaborator and every string `s` that does not itself start with a
scheme prefix, parsing `"https://" ++ s` or `"http://" ++ s` gives the
same result as parsing `s`. -/
theorem parse_strips_scheme :
    ∀ (G : Str → GrammarResult) (s : Str),
      (str "http://").isPrefixOf s = false →
      (str "https://").isPrefixOf s = false →
      Parse G (str "https://" ++ s) = Parse G s ∧
      Parse G (str "http://" ++ s) = Parse G s ∧
      ParseRepo G (str "https://" ++ s) = ParseRepo G s ∧
      ParseRepo G (str "http://" ++ s) = ParseRepo G s := by
  intro G s h1 h2
  unfold Parse ParseRepo
  rw [clean_https, clean_http, clean_id h1 h2]
  exact ⟨rfl, rfl, rfl, rfl⟩

/-- Witness for C8 as amended at the concrete remote "ubuntu". -/
theorem parse_strips_scheme_w :
    Parse (fun s => .ok ⟨s, none, none⟩) (str "https://" ++ str "ubuntu")
      = Parse (fun s => .ok ⟨s, none, none⟩) (str "ubuntu") :=
  (parse_strips_scheme (fun s => .ok ⟨s, none, none⟩) (str "ubuntu")
    (by decide) (by decide)).1

/-! ## C10: ParseRepo refines Parse -/

/-- C10: for every grammar collaborator and remote string, `ParseRepo`
fails exactly when `Parse` fails (with the same error), and on success
the record's fields equal the corresponding facade accessors of the
reference `Parse` returns. -/
theorem parseRepo_refines_parse :
    ∀ (G : Str → GrammarResult) (remote : Str),
      ((∃ e, ParseRepo G remote = .error e) ↔ (∃ e, Parse G remote = .error e)) ∧
      (∀ e, ParseRepo G remote = .error e → Parse G remote = .error e) ∧
      (∀ rep, ParseRepo G remote = .ok rep →
        ∃ r, Parse G remote = .ok r ∧
          rep.Name = r.Name ∧ rep.Repository = r.Repository ∧ rep.Registry = r.Registry ∧
          rep.Remote = r.Remote ∧ rep.ShortName = r.ShortName ∧ rep.Tag = r.Tag) := by
  intro G remote
  unfold ParseRepo Parse ParseRepoFrom ParseFrom
  cases hp : ParseNamedFrom (G (clean remote)) <;> simp

/-- Witness for C10 at the concrete remote "ubuntu" (grammar returning
the name unchanged). -/
theorem parseRepo_refines_parse_w :
    ∃ r, Parse (fun s => .ok ⟨s, none, none⟩) (str "ubuntu") = .ok r ∧
      str "library/ubuntu:latest" = r.Name ∧
      str "index.docker.io/library/ubuntu" = r.Repository ∧
      str "index.docker.io" = r.Registry ∧
      str "index.docker.io/library/ubuntu:latest" = r.Remote ∧
      str "library/ubuntu" = r.ShortName ∧
      str "latest" = r.Tag :=
  (parseRepo_refines_parse (fun s => .ok ⟨s, none, none⟩) (str "ubuntu")).2.2
    { Name := str "library/ubuntu:latest", Repository := str "index.docker.io/library/ubuntu",
      Registry := str "index.docker.io", Scheme := [], ShortName := str "library/ubuntu",
      Remote := str "index.docker.io/library/ubuntu:latest", Tag := str "latest" }
    (by decide)

end Keel
